import Mathlib

/-!
# Verification of the schema-discovery pipeline

A shallow embedding of the core pipeline of the repository
(`scripts/build_graph.py`, `scripts/main.py`, `scripts/compare_schemas.py`,
`app.py`): the tabular role classifier, the graph builder, the attribute
profiler, the deterministic (mock) schema synthesizer, and the fuzzy schema
comparator, together with theorems settling the specification's claims.

Modelling conventions, used throughout:
* Python scalars are `PVal`; pandas missing cells are `PVal.nan` (a float
  NaN, which is *not* `None`).
* Python `dict`s are association lists in insertion order; assigning to an
  existing key updates the value in place, a fresh key is appended — exactly
  CPython's semantics.  Python `set`s have no specified iteration order; the
  embedding determinizes them to first-insertion order.  All claims below are
  order-insensitive, so this determinization is benign.
* Python `float` arithmetic is modelled by exact rationals (`ℚ`).  Every
  numeric comparison appearing in the source (`x / y > 0.9`, `score > 0.8`)
  involves small integer ratios, where exact and IEEE-double comparison
  agree.  Quotients are written `mkRat a b` (the normalized rational
  `a / b`, with `mkRat a 0 = 0` exactly as `ℚ` division by zero) so that
  every value kernel-computes.
* `str.lower` is modelled by `Char.toLower` mapped over the string, which is
  faithful for ASCII (all inputs appearing in the claims).
-/

namespace SchemaDiscovery

/-- A Python scalar value as it appears in a pandas cell or an attribute bag:
string, int, float, bool, or NaN (pandas' missing-value marker, itself a
float). -/
inductive PVal where
  | s (v : String)
  | i (v : Int)
  | f (v : ℚ)
  | b (v : Bool)
  | nan
deriving DecidableEq, Repr

/-- Python `str(v)` for the scalars above.  `str` of a float is modelled as
the decimal rendering of the rational (no claim stringifies a float). -/
def pyStr : PVal → String
  | .s v => v
  | .i v => toString v
  | .b true => "True"
  | .b false => "False"
  | .f v => toString v
  | .nan => "nan"

/-! ## Association lists with Python-dict semantics -/

/-- `m[k]` if present (Python `dict.get`). -/
def alGet? {κ ν : Type} [DecidableEq κ] (m : List (κ × ν)) (k : κ) : Option ν :=
  (m.find? (fun p => decide (p.1 = k))).map (·.2)

/-- `m[k] = v`: update in place when the key exists (keeping its position),
append otherwise — CPython dict assignment. -/
def alSet {κ ν : Type} [DecidableEq κ] (m : List (κ × ν)) (k : κ) (v : ν) :
    List (κ × ν) :=
  if m.any (fun p => decide (p.1 = k)) then
    m.map (fun p => if p.1 = k then (k, v) else p)
  else m ++ [(k, v)]

/-- `m.update(kvs)`: fold `alSet` over the new pairs (later wins per key). -/
def alMerge {κ ν : Type} [DecidableEq κ] (m kvs : List (κ × ν)) : List (κ × ν) :=
  kvs.foldl (fun b p => alSet b p.1 p.2) m

/-- One insertion into a Python set, determinized: append unless present. -/
def dedupStep {α : Type} [DecidableEq α] (acc : List α) (a : α) : List α :=
  if a ∈ acc then acc else acc ++ [a]

/-- First-occurrence deduplication: the determinization of a Python `set`
built by inserting the list's elements left to right. -/
def dedupFirst {α : Type} [DecidableEq α] (l : List α) : List α :=
  l.foldl dedupStep []

/-- An attribute bag: a Python dict from attribute name to scalar. -/
abbrev Bag := List (String × PVal)

/-! ## String helpers (Python `in`, `str.lower`) -/

/-- `needle in haystack` on character lists (contiguous substring). -/
def listIn (needle : List Char) : List Char → Bool
  | [] => needle.isEmpty
  | c :: cs => needle.isPrefixOf (c :: cs) || listIn needle cs

/-- Python `needle in haystack` for strings. -/
def strIn (needle haystack : String) : Bool :=
  listIn needle.toList haystack.toList

/-- Python `s.lower()` (ASCII-faithful, see header): lowercase every
character. -/
def pyLower (s : String) : String :=
  ⟨s.data.map Char.toLower⟩

/-! ## Tabular role classifier — `build_graph.detect_file_role` -/

inductive FileRole where
  | node | edge | unknown
deriving DecidableEq, Repr

/-- `':START_ID' in c or 'source' in c.lower()`. -/
def isStartCol (c : String) : Bool :=
  strIn ":START_ID" c || strIn "source" (pyLower c)

/-- `':END_ID' in c or 'target' in c.lower()`. -/
def isEndCol (c : String) : Bool :=
  strIn ":END_ID" c || strIn "target" (pyLower c)

/-- `start_col = next((c for c in cols if ...), None)`. -/
def startColOf (cols : List String) : Option String :=
  cols.find? isStartCol

/-- `end_col = next((c for c in cols if ...), None)`. -/
def endColOf (cols : List String) : Option String :=
  cols.find? isEndCol

/-- `id_col = next((c for c in cols if ':ID' in c or 'id' in c.lower() and not
start_col), None)` — by Python precedence `(':ID' in c) or (('id' in
c.lower()) and (not start_col))`. -/
def idColOf (cols : List String) : Option String :=
  cols.find? (fun c => strIn ":ID" c || (strIn "id" (pyLower c) && (startColOf cols).isNone))

/-- `detect_file_role` restricted to the role tag (the column dictionary it
also returns is recovered by `startColOf`/`endColOf`/`idColOf`). -/
def detectFileRole (cols : List String) : FileRole :=
  if (startColOf cols).isSome && (endColOf cols).isSome then .edge
  else if (idColOf cols).isSome then .node
  else .unknown

/-! ## `build_graph.clean_type_name` -/

/-- Case-insensitively strip `pat` from the front of `s`, returning the rest. -/
def ciStrip? (pat s : List Char) : Option (List Char) :=
  match pat, s with
  | [], rest => some rest
  | _ :: _, [] => none
  | p :: ps, c :: cs => if p.toLower = c.toLower then ciStrip? ps cs else none

/-- The scan of `removeAllCI`, with structural fuel (each step shortens the
text by at least one character, so `fuel = s.length` never runs out for a
nonempty pattern). -/
def removeAllCIAux (pat : List Char) : Nat → List Char → List Char
  | _, [] => []
  | 0, s => s
  | fuel + 1, c :: cs =>
    match ciStrip? pat (c :: cs) with
    | some rest => removeAllCIAux pat fuel rest
    | none => c :: removeAllCIAux pat fuel cs

/-- `re.sub(pat, '', s, flags=re.IGNORECASE)` for a literal pattern:
leftmost non-overlapping case-insensitive occurrences removed. -/
def removeAllCI (pat : List Char) (s : List Char) : List Char :=
  if pat.isEmpty then s else removeAllCIAux pat s.length s

/-- `os.path.basename`: the part after the last `/`. -/
def afterLastSlash (l : List Char) : List Char :=
  l.foldl (fun acc c => if c = '/' then [] else acc ++ [c]) []

/-- The root part of `os.path.splitext`: drop from the last `.` on, unless
every character before that dot is itself a dot (leading dots carry no
extension). -/
def splitextRoot (l : List Char) : List Char :=
  match ((List.range l.length).filter
      (fun i => l.getD i ' ' == '.' && (l.take i).any (· != '.'))).getLast? with
  | some i => l.take i
  | none => l

/-- `clean_type_name`: basename without extension, with the dataset
decorations `Neuprint_`, `_fib25`, `_hemibrain`, `_strict` removed
case-insensitively. -/
def cleanTypeName (filename : String) : String :=
  let base := splitextRoot (afterLastSlash filename.toList)
  let base := removeAllCI "Neuprint_".toList base
  let base := removeAllCI "_fib25".toList base
  let base := removeAllCI "_hemibrain".toList base
  let base := removeAllCI "_strict".toList base
  ⟨base⟩

/-! ## Graph model — `networkx.DiGraph` as used by `build_graph`

`nx.DiGraph` keys nodes by identifier and edges by the `(source, target)`
pair: `add_edge` on an existing pair merges attributes into the existing
edge.  Insertion order is preserved, matching networkx's dict-backed
storage. -/

structure Graph where
  nodes : List (String × Bag)
  edges : List ((String × String) × Bag)
deriving DecidableEq, Repr

/-- `G.add_node(id, **attrs)`: merge into the existing attribute dict, or
append a fresh node whose dict is built from `attrs` left to right. -/
def Graph.addNode (g : Graph) (id : String) (attrs : Bag) : Graph :=
  { g with nodes :=
      match alGet? g.nodes id with
      | some bag => alSet g.nodes id (alMerge bag attrs)
      | none => g.nodes ++ [(id, alMerge [] attrs)] }

/-- `G.add_edge(u, v, **attrs)` on a `DiGraph`: endpoints missing from the
node set are added with an empty attribute dict (never reached by
`build_graph`, which ensures both first); the edge dict for `(u, v)` is
merged or freshly created. -/
def Graph.addEdge (g : Graph) (u v : String) (attrs : Bag) : Graph :=
  let g1 := if (alGet? g.nodes u).isSome then g
            else { g with nodes := g.nodes ++ [(u, [])] }
  let g2 := if (alGet? g1.nodes v).isSome then g1
            else { g1 with nodes := g1.nodes ++ [(v, [])] }
  { nodes := g2.nodes
    edges :=
      -- the endpoint-ensure steps touch only the node dict, so the edge
      -- dict read and updated here is still `g.edges`
      match alGet? g.edges (u, v) with
      | some bag => alSet g.edges (u, v) (alMerge bag attrs)
      | none => g.edges ++ [((u, v), alMerge [] attrs)] }

/-! ## `build_graph.build_graph`

A CSV file is modelled already parsed: a filename, a header, and the data
rows (each aligned with the header; missing cells are `PVal.nan`, the value
pandas fills in).  Header names are assumed distinct (pandas mangles
duplicates) and no column is literally named `node_type`/`type` (such a
column would raise a duplicate-keyword `TypeError` in `add_node`/`add_edge`
and abort the file).  Per-file read failures in the source (`try/except`
around each file) simply skip the file; the model takes the parsed files as
given. -/

structure CsvFile where
  filename : String
  cols : List String
  rows : List (List PVal)
deriving Repr

/-- `row.to_dict()`: the pandas row keyed by column name. -/
def rowDict (cols : List String) (row : List PVal) : Bag :=
  cols.zip row

/-- `df[c].astype(str)` applied to one row dict: stringify the named columns. -/
def astypeStr (d : Bag) (strCols : List String) : Bag :=
  d.map (fun p => if p.1 ∈ strCols then (p.1, PVal.s (pyStr p.2)) else p)

/-- One iteration of the Pass-1 row loop:
`G.add_node(row[id_col], node_type=type_name, **row.to_dict())`. -/
def addNodeRow (g : Graph) (t : String) (idc : String) (cols : List String)
    (row : List PVal) : Graph :=
  let d := astypeStr (rowDict cols row) [idc]
  let idv := pyStr ((alGet? d idc).getD .nan)
  g.addNode idv (alMerge [("node_type", .s t)] d)

/-- Pass 1 processing of one node-classified file. -/
def processNodeFile (g : Graph) (file : CsvFile) : Graph :=
  match idColOf file.cols with
  | none => g
  | some idc =>
    let t := cleanTypeName file.filename
    file.rows.foldl (fun g row => addNodeRow g t idc file.cols row) g

/-- The attribute dict of a synthesized placeholder endpoint:
`node_type="Inferred"` and nothing else. -/
def inferredBag : Bag :=
  [("node_type", .s "Inferred")]

/-- One iteration of the Pass-2 row loop: synthesize missing endpoints with
`node_type="Inferred"`, then `G.add_edge(u, v, type=type_name, **row)`. -/
def addEdgeRow (g : Graph) (t : String) (sc ec : String) (cols : List String)
    (row : List PVal) : Graph :=
  let d := astypeStr (rowDict cols row) [sc, ec]
  let u := pyStr ((alGet? d sc).getD .nan)
  let v := pyStr ((alGet? d ec).getD .nan)
  let g1 := if (alGet? g.nodes u).isSome then g else g.addNode u inferredBag
  let g2 := if (alGet? g1.nodes v).isSome then g1 else g1.addNode v inferredBag
  g2.addEdge u v (alMerge [("type", .s t)] d)

/-- Pass 2 processing of one edge-classified file. -/
def processEdgeFile (g : Graph) (file : CsvFile) : Graph :=
  match startColOf file.cols, endColOf file.cols with
  | some sc, some ec =>
    let t := cleanTypeName file.filename
    file.rows.foldl (fun g row => addEdgeRow g t sc ec file.cols row) g
  | _, _ => g

/-- Pass 1: every file the classifier marks `node`, in folder order. -/
def buildPass1 (files : List CsvFile) : Graph :=
  files.foldl
    (fun g f => if detectFileRole f.cols = .node then processNodeFile g f else g)
    ⟨[], []⟩

/-- Pass 2 over a starting graph: every file the classifier marks `edge`. -/
def buildPass2 (g : Graph) (files : List CsvFile) : Graph :=
  files.foldl
    (fun g f => if detectFileRole f.cols = .edge then processEdgeFile g f else g)
    g

/-- `build_graph`: all node files, then all edge files. -/
def buildGraph (files : List CsvFile) : Graph :=
  buildPass2 (buildPass1 files) files

/-! ## Deterministic fallback synthesizer — `app.generate_mock_schema` -/

structure MockProperty where
  name : String
  type : String
  mandatory : Bool
deriving DecidableEq, Repr

/-- A node-type entry of the mock schema (`name`/`labels` hold whatever value
the `node_type` attribute carried, a string for graphs built by
`build_graph`). -/
structure MockNodeType where
  name : PVal
  labels : List PVal
  properties : List MockProperty
deriving DecidableEq, Repr

structure MockEdgeType where
  type : PVal
  name : PVal
  properties : List MockProperty
deriving DecidableEq, Repr

structure MockSchema where
  node_types : List MockNodeType
  edge_types : List MockEdgeType
deriving DecidableEq, Repr

/-- The `prop_type` chain of `generate_mock_schema`.  In CPython `bool` is a
subclass of `int`, so a boolean satisfies `isinstance(v, (int, float))` and
then `isinstance(v, int)`, landing in `'Long'`; the explicit `Boolean`
branch is unreachable.  NaN is a float. -/
def propTypeOf : PVal → String
  | .i _ => "Long"
  | .f _ => "Double"
  | .nan => "Double"
  | .b _ => "Long"
  | .s _ => "String"

/-- `[n for n, attr in G.nodes(data=True) if attr.get('node_type') == nt]`. -/
def nodesOfType (g : Graph) (nt : PVal) : List (String × Bag) :=
  g.nodes.filter (fun p => decide (alGet? p.2 "node_type" = some nt))

/-- `[(u, v, attr) for u, v, attr in G.edges(data=True) if attr.get('type') == et]`. -/
def edgesOfType (g : Graph) (et : PVal) : List ((String × String) × Bag) :=
  g.edges.filter (fun p => decide (alGet? p.2 "type" = some et))

/-- The property loop shared by the node and edge branches of
`generate_mock_schema`: iterate the sample member's attribute dict, skip the
type tag, and mark a key mandatory exactly when
`has_prop_count / len(population) > 0.9` (float division modelled exactly
over `ℚ`, see header). -/
def mockProps (population : List Bag) (sampleBag : Bag) (skipKey : String) :
    List MockProperty :=
  (sampleBag.filter (fun p => decide (p.1 ≠ skipKey))).map (fun p =>
    let cnt := (population.filter (fun bag => (alGet? bag p.1).isSome)).length
    { name := p.1
      type := propTypeOf p.2
      mandatory := decide (mkRat cnt population.length > mkRat 9 10) })

/-- One node-type entry of the mock schema (the body of the node loop of
`generate_mock_schema`): skipped when the type has no members, else built
from the first member as the sample. -/
def mockNodeEntry (g : Graph) (nt : PVal) : Option MockNodeType :=
  match nodesOfType g nt with
  | [] => none
  | sample :: rest =>
    some { name := nt
           labels := [nt]
           properties := mockProps ((sample :: rest).map Prod.snd) sample.2 "node_type" }

/-- One edge-type entry of the mock schema (the body of the edge loop). -/
def mockEdgeEntry (g : Graph) (et : PVal) : Option MockEdgeType :=
  match edgesOfType g et with
  | [] => none
  | e :: rest =>
    some { type := et
           name := et
           properties := mockProps ((e :: rest).map Prod.snd) e.2 "type" }

/-- `generate_mock_schema` (the status/message bookkeeping and the 2-second
sleep are presentation only and elided).  Python's `set` of observed type
values is determinized to first-occurrence order. -/
def generateMockSchema (g : Graph) : MockSchema :=
  { node_types :=
      (dedupFirst (g.nodes.filterMap (fun p => alGet? p.2 "node_type"))).filterMap
        (mockNodeEntry g)
    edge_types :=
      (dedupFirst (g.edges.filterMap (fun p => alGet? p.2 "type"))).filterMap
        (mockEdgeEntry g) }

/-! ## `difflib.SequenceMatcher` (CPython, `isjunk=None`)

The comparator's string similarity is `SequenceMatcher(None, a.lower(),
b.lower()).ratio()`.  The embedding follows CPython's `difflib` exactly:
`__chain_b` builds the index table `b2j` (with the autojunk rule discarding
characters covering more than 1% of a `b` of length ≥ 200),
`find_longest_match` runs the quadratic scan plus the two non-junk extension
loops (the two junk extension loops never fire since `isjunk is None` leaves
`bjunk` empty), and `get_matching_blocks` recursively splits around each
longest match; `ratio()` only needs the total matched length, which the
block merging step does not change. -/

/-- `b2j` before autojunk: each character of `b` mapped to its ascending
list of positions. -/
def b2jBuild (b : List Char) : List (Char × List Nat) :=
  b.enum.foldl (fun m p => alSet m p.2 ((alGet? m p.2).getD [] ++ [p.1])) []

/-- `__chain_b`: apply the autojunk rule — for `len(b) >= 200`, characters
occurring more than `len(b) // 100 + 1` times are dropped from the table. -/
def b2jOf (b : List Char) : List (Char × List Nat) :=
  let m := b2jBuild b
  if 200 ≤ b.length then
    let ntest := b.length / 100 + 1
    m.filter (fun p => decide (p.2.length ≤ ntest))
  else m

/-- The inner loop's traversal of `b2j[a[i]]`: `continue` on `j < blo`,
`break` on `j >= bhi`. -/
def jCandidates (blo bhi : Nat) : List Nat → List Nat
  | [] => []
  | j :: rest =>
    if j < blo then jCandidates blo bhi rest
    else if bhi ≤ j then []
    else j :: jCandidates blo bhi rest

/-- The first `while` of `find_longest_match`: extend the match leftwards
over equal characters (junk-free since `bjunk` is empty).  Structural fuel:
each iteration lowers `besti` by one and stops at `alo`, so `fuel = besti`
never runs out. -/
def extendLeft (a b : List Char) (alo blo : Nat) :
    Nat → Nat → Nat → Nat → Nat × Nat × Nat
  | 0, besti, bestj, bestsize => (besti, bestj, bestsize)
  | fuel + 1, besti, bestj, bestsize =>
    if alo < besti ∧ blo < bestj ∧
        a.getD (besti - 1) ' ' = b.getD (bestj - 1) ' ' then
      extendLeft a b alo blo fuel (besti - 1) (bestj - 1) (bestsize + 1)
    else (besti, bestj, bestsize)

/-- The second `while` of `find_longest_match`: extend rightwards.  Each
iteration raises `besti + bestsize`, which stays below `ahi`, so
`fuel = ahi` never runs out. -/
def extendRight (a b : List Char) (ahi bhi : Nat) :
    Nat → Nat → Nat → Nat → Nat × Nat × Nat
  | 0, besti, bestj, bestsize => (besti, bestj, bestsize)
  | fuel + 1, besti, bestj, bestsize =>
    if besti + bestsize < ahi ∧ bestj + bestsize < bhi ∧
        a.getD (besti + bestsize) ' ' = b.getD (bestj + bestsize) ' ' then
      extendRight a b ahi bhi fuel besti bestj (bestsize + 1)
    else (besti, bestj, bestsize)

/-- `find_longest_match(alo, ahi, blo, bhi)` → `(besti, bestj, bestsize)`.
The dynamic-programming state per `i` is the dict `j2len`; Python's
`j2len.get(j-1, 0)` with `j = 0` reads key `-1`, never present, so the model
returns 0 there directly. -/
def findLongestMatch (a b : List Char) (b2j : List (Char × List Nat))
    (alo ahi blo bhi : Nat) : Nat × Nat × Nat :=
  let scan := (List.range' alo (ahi - alo)).foldl
    (fun (st : (Nat × Nat × Nat) × List (Nat × Nat)) i =>
      let js := jCandidates blo bhi ((alGet? b2j (a.getD i ' ')).getD [])
      js.foldl
        (fun (st2 : (Nat × Nat × Nat) × List (Nat × Nat)) j =>
          let k := (if j = 0 then 0 else (alGet? st.2 (j - 1)).getD 0) + 1
          let newj2len := alSet st2.2 j k
          if k > st2.1.2.2 then ((i + 1 - k, j + 1 - k, k), newj2len)
          else (st2.1, newj2len))
        (st.1, []))
    ((alo, blo, 0), [])
  let best := scan.1
  let left := extendLeft a b alo blo best.1 best.1 best.2.1 best.2.2
  extendRight a b ahi bhi ahi left.1 left.2.1 left.2.2

/-- Total matched length over `get_matching_blocks` (the queue recursion of
CPython, written with the window splits as direct recursive calls; the
final sort-and-merge step preserves the total).  `fuel` only serves
termination; `la + lb + 1` strictly bounds the recursion depth. -/
def matchTotal (a b : List Char) (b2j : List (Char × List Nat)) :
    Nat → Nat → Nat → Nat → Nat → Nat
  | 0, _, _, _, _ => 0
  | fuel + 1, alo, ahi, blo, bhi =>
    let m := findLongestMatch a b b2j alo ahi blo bhi
    let i := m.1
    let j := m.2.1
    let k := m.2.2
    if k = 0 then 0
    else
      (if alo < i ∧ blo < j then matchTotal a b b2j fuel alo i blo j else 0) +
      k +
      (if i + k < ahi ∧ j + k < bhi then matchTotal a b b2j fuel (i + k) ahi (j + k) bhi
       else 0)

/-- `SequenceMatcher.ratio()`: `2 * M / (len(a) + len(b))`, and 1 for two
empty sequences (`_calculate_ratio`). -/
def smRatio (a b : List Char) : ℚ :=
  let la := a.length
  let lb := b.length
  let total := matchTotal a b (b2jOf b) (la + lb + 1) 0 la 0 lb
  if la + lb = 0 then 1 else mkRat (2 * total) (la + lb)

/-! ## Schema comparator — `compare_schemas.py` / `app.py` -/

/-- `similar(a, b)`: 0 when either string is falsy (empty), else the
`SequenceMatcher` ratio of the lowercased strings. -/
def similar (a b : String) : ℚ :=
  if a = "" ∨ b = "" then 0
  else smRatio (pyLower a).toList (pyLower b).toList

/-- The loop body of `find_best_match`: `if score > 0.8: if score >
best_score: update`. -/
def fbmStep (name : String) (acc : ℚ × Option String) (t : String) :
    ℚ × Option String :=
  let score := similar name t
  if score > mkRat 4 5 ∧ score > acc.1 then (score, some t) else acc

/-- `find_best_match`: keep the best-scoring target with score strictly
above 0.8 (`best_score` starts at 0; ties keep the earlier target). -/
def findBestMatch (name : String) (targets : List String) : Option String :=
  (targets.foldl (fbmStep name) (0, none)).2

/-- A schema property as the comparator reads it: only `name` is consulted;
`""` models an absent or empty (falsy) name. -/
structure SProp where
  name : String
deriving DecidableEq, Repr

/-- A schema type entry as the comparator reads it.  `""` models an absent
or falsy `name`/`type` field (an absent field and an explicit empty string
are identified; both are falsy and can never fuzzy-match). -/
structure SType where
  name : String
  type : String
  labels : List String
  properties : List SProp
deriving DecidableEq, Repr

structure Schema where
  node_types : List SType
  edge_types : List SType
deriving DecidableEq, Repr

/-- Canonical node-type name:
`n.get('name') or (n.get('labels', [''])[0] if n.get('labels') else '')`. -/
def canonicalNodeName (n : SType) : String :=
  if n.name ≠ "" then n.name
  else match n.labels with
    | [] => ""
    | l :: _ => l

/-- Canonical edge-type name: `e.get('type') or e.get('name')`. -/
def canonicalEdgeName (e : SType) : String :=
  if e.type ≠ "" then e.type else e.name

/-- `{canon(t): t for t in ts}` — dict comprehension: first position,
last value per key. -/
def typeDict (canon : SType → String) (ts : List SType) : List (String × SType) :=
  ts.foldl (fun m t => alSet m (canon t) t) []

/-- `compare_properties`: the name sets (truthy names only) partitioned into
intersection, reference-only, candidate-only.  Python set results are
determinized to first-occurrence order of the owning side. -/
def compareProps (gtProps infProps : List SProp) :
    List String × List String × List String :=
  let gtNames := dedupFirst ((gtProps.filter (fun p => decide (p.name ≠ ""))).map (·.name))
  let infNames := dedupFirst ((infProps.filter (fun p => decide (p.name ≠ ""))).map (·.name))
  (gtNames.filter (· ∈ infNames),
   gtNames.filter (· ∉ infNames),
   infNames.filter (· ∉ gtNames))

/-- Python `round(x, 2)` on the exact rational: round half to even at the
second decimal, computed on the numerator/denominator so the kernel can
evaluate it (`q * 100 = q.num * 100 / q.den`, `fl` its floor, `r2` twice
the remainder compared against the denominator to classify below/at/above
the half). -/
def round2 (q : ℚ) : ℚ :=
  let n := q.num * 100
  let d : Int := q.den
  let fl := Int.fdiv n d
  let r2 := (n - fl * d) * 2
  let n' : Int :=
    if r2 > d then fl + 1
    else if r2 < d then fl
    else if fl % 2 = 0 then fl else fl + 1
  mkRat n' 100

/-- The comparison result assembled by the `/compare` route of `app.py`:
`property_details` holds, per matched node pair, the reference name and the
(correct, missing, extra) partition. -/
structure MatchSet where
  accuracy : ℚ
  node_matches : List (String × String)
  edge_matches : List (String × String)
  property_details : List (String × (List String × List String × List String))
  total_properties : Nat
  matched_properties : Nat
deriving DecidableEq, Repr

/-- `d[name].get('properties', [])` (the key always comes from the dict's
own key list, so the lookup never fails in the source). -/
def lookupProps (d : List (String × SType)) (k : String) : List SProp :=
  match alGet? d k with
  | some t => t.properties
  | none => []

/-- The property-accuracy accumulation loop of `compare_schemas`
(`app.py`): walk the matched node pairs, summing the reference property-list
length and the intersection size, and collecting the per-pair partitions. -/
def accumulateProps (gtNodes infNodes : List (String × SType)) :
    List (String × String) →
    Nat × Nat × List (String × (List String × List String × List String))
  | [] => (0, 0, [])
  | (gname, iname) :: rest =>
    let parts := compareProps (lookupProps gtNodes gname) (lookupProps infNodes iname)
    let acc := accumulateProps gtNodes infNodes rest
    ((lookupProps gtNodes gname).length + acc.1, parts.1.length + acc.2.1,
     (gname, parts) :: acc.2.2)

/-- The node-type index `{canonical: entry}` of a schema. -/
def nodeDictOf (s : Schema) : List (String × SType) :=
  typeDict canonicalNodeName s.node_types

/-- The edge-type index of a schema. -/
def edgeDictOf (s : Schema) : List (String × SType) :=
  typeDict canonicalEdgeName s.edge_types

/-- The match loop: for every reference canonical name (dict order), keep
`find_best_match` hits as `(reference, candidate)` pairs. -/
def matchNames (gtD infD : List (String × SType)) : List (String × String) :=
  (gtD.map Prod.fst).filterMap (fun gname =>
    (findBestMatch gname (infD.map Prod.fst)).map (fun m => (gname, m)))

/-- `compare_schemas` (`app.py` `/compare`, after the two JSON files are
loaded): index both schemas by canonical name, fuzzy-match reference names
against candidate names, partition properties per matched node pair, and
score.  `accuracy = round(total_matches / total_props * 100, 2)` when
`total_props > 0`, else 0. -/
def compareSchemas (gt inf : Schema) : MatchSet :=
  let gtNodes := nodeDictOf gt
  let infNodes := nodeDictOf inf
  let nodeMatches := matchNames gtNodes infNodes
  let totals := accumulateProps gtNodes infNodes nodeMatches
  let edgeMatches := matchNames (edgeDictOf gt) (edgeDictOf inf)
  let rawAccuracy : ℚ :=
    if 0 < totals.1 then mkRat (totals.2.1 * 100) totals.1 else 0
  { accuracy := round2 rawAccuracy
    node_matches := nodeMatches
    edge_matches := edgeMatches
    property_details := totals.2.2
    total_properties := totals.1
    matched_properties := totals.2.1 }

/-! ## Attribute profiler — `main.profile_node_type` / `main.profile_edge_type`

The profilers render a textual report; the embedding keeps the computed
statistics (counts, topology histogram, per-key presence counts) and elides
the prose and the example-value rendering, which no claim concerns. -/

/-- `G.nodes[u].get('node_type', 'Unknown')` rendered into the
`f"{src_type}->{tgt_type}"` connection string. -/
def nodeTypeStr (nodes : List (String × Bag)) (u : String) : String :=
  pyStr ((alGet? ((alGet? nodes u).getD []) "node_type").getD (.s "Unknown"))

/-- `collections.Counter` over a list: counts keyed in first-occurrence
order. -/
def counterOf {α : Type} [DecidableEq α] (l : List α) : List (α × Nat) :=
  l.foldl (fun m x => alSet m x ((alGet? m x).getD 0 + 1)) []

/-- Stable insertion (after all entries with count ≥ the new one). -/
def insertByCount {α : Type} (x : α × Nat) : List (α × Nat) → List (α × Nat)
  | [] => [x]
  | y :: ys => if x.2 ≤ y.2 then y :: insertByCount x ys else x :: y :: ys

/-- `Counter.most_common(k)`: count-descending and stable (CPython's
`heapq.nlargest` is documented equivalent to a stable reverse sort). -/
def mostCommon {α : Type} (k : Nat) (m : List (α × Nat)) : List (α × Nat) :=
  (m.foldr insertByCount []).take k

structure EdgeProfile where
  count : Nat
  topology : List (String × Nat)
  keyStats : List (String × Nat)
deriving DecidableEq, Repr

/-- `connections`: the `f"{src_type}->{tgt_type}"` strings of
`edges_of_type[:50]`. -/
def edgeConnections (nodes : List (String × Bag))
    (es : List ((String × String) × Bag)) : List String :=
  (es.take 50).map (fun e =>
    nodeTypeStr nodes e.1.1 ++ "->" ++ nodeTypeStr nodes e.1.2)

/-- `common_topology = Counter(connections).most_common(5)`. -/
def edgeTopology (nodes : List (String × Bag))
    (es : List ((String × String) × Bag)) : List (String × Nat) :=
  mostCommon 5 (counterOf (edgeConnections nodes es))

/-- `all_keys`: the attribute keys of `edges_of_type[:100]` with the `type`
tag removed (Python-set order determinized to first occurrence). -/
def edgeSampleKeys (es : List ((String × String) × Bag)) : List String :=
  (dedupFirst ((es.take 100).foldl (fun ks e => ks ++ e.2.map Prod.fst) [])).filter
    (fun k => decide (k ≠ "type"))

/-- `non_null_count` for one key: presence over the whole of `es`
(`attr.get(key) is not None`; bags built from CSVs never hold `None`). -/
def edgePresence (es : List ((String × String) × Bag)) (k : String) : Nat :=
  (es.filter (fun e => (alGet? e.2 k).isSome)).length

/-- The statistics of `profile_edge_type` over an already-filtered edge
population `es` (the list `edges_of_type`). -/
def profileEdgeList (nodes : List (String × Bag))
    (es : List ((String × String) × Bag)) : EdgeProfile :=
  { count := es.length
    topology := edgeTopology nodes es
    keyStats := (edgeSampleKeys es).filterMap (fun k =>
      let nonNull := edgePresence es k
      if nonNull = 0 then none else some (k, nonNull)) }

/-- `profile_edge_type(G, target_type)`: `none` models the empty-report
early return when the type has no edges. -/
def profileEdgeType (g : Graph) (et : PVal) : Option EdgeProfile :=
  match edgesOfType g et with
  | [] => none
  | e :: rest => some (profileEdgeList g.nodes (e :: rest))

structure NodeProfile where
  count : Nat
  keyStats : List (String × Nat)
deriving DecidableEq, Repr

/-- `profile_node_type` statistics, with `random.sample` determinized to the
population prefix of the same size (for populations ≤ 1000 the sample is the
whole population anyway; no claim depends on the sample).  Keys come from
the sample with `node_type` removed; presence counts scan the full
population. -/
def profileNodeType (g : Graph) (nt : PVal) : Option NodeProfile :=
  match nodesOfType g nt with
  | [] => none
  | n :: rest =>
    let ns := n :: rest
    let sample := ns.take (min ns.length 1000)
    let allKeys :=
      (dedupFirst (sample.foldl (fun ks m => ks ++ m.2.map Prod.fst) [])).filter
        (fun k => decide (k ≠ "node_type"))
    let keyStats := allKeys.filterMap (fun k =>
      let nonNull := (ns.filter (fun m => (alGet? m.2 k).isSome)).length
      if nonNull = 0 then none else some (k, nonNull))
    some { count := ns.length, keyStats := keyStats }

/-- The profile report assembled before the synthesis step (`context_report`
in `process_schema_discovery`; its textual rendering is presentation). -/
structure ContextReport where
  totalNodes : Nat
  totalEdges : Nat
  nodeProfiles : List NodeProfile
  edgeProfiles : List EdgeProfile
deriving Repr

def contextReport (g : Graph) : ContextReport :=
  { totalNodes := g.nodes.length
    totalEdges := g.edges.length
    nodeProfiles :=
      (dedupFirst (g.nodes.filterMap (fun p => alGet? p.2 "node_type"))).filterMap
        (profileNodeType g)
    edgeProfiles :=
      (dedupFirst (g.edges.filterMap (fun p => alGet? p.2 "type"))).filterMap
        (profileEdgeType g) }

/-! ## Pipeline driver — `app.process_schema_discovery` -/

/-- The observable outcome of one `process_schema_discovery` run:
`reachedSynthesis` records whether control reached the `call_gemini_api`
call (mock or real), `savedSchema` the written `inferred_schema.json`
content (`none` = no file written). -/
structure ProcResult where
  status : String
  message : String
  reachedSynthesis : Bool
  savedSchema : Option MockSchema
deriving Repr

/-- `process_schema_discovery`, with the external oracle injected as a
function from the profile report to an already-JSON-extracted schema
(`none` folds the `API call failed` and `Failed to parse JSON response from
API` branches together — both report an error and write nothing; no claim
distinguishes them).  `use_mock = not api_key` as in the source; in mock
mode the deterministic `generate_mock_schema(G)` result is saved and no
external call happens. -/
def processSchemaDiscovery (files : List CsvFile) (apiKey : Option String)
    (oracle : ContextReport → Option MockSchema) : ProcResult :=
  let G := buildGraph files
  if G.nodes.length = 0 then
    { status := "error", message := "Graph is empty. No data found."
      reachedSynthesis := false, savedSchema := none }
  else
    let report := contextReport G
    let useMock := apiKey.isNone
    let response : Option MockSchema :=
      if useMock then some (generateMockSchema G) else oracle report
    match response with
    | some schema =>
      { status := "completed"
        message := "Schema discovery completed successfully!"
        reachedSynthesis := true, savedSchema := some schema }
    | none =>
      { status := "error", message := "API call failed"
        reachedSynthesis := true, savedSchema := none }

/-! ## Derived notions used by the claim statements -/

/-- The `(source, target)` string pair a Pass-2 row produces (the same
expressions `addEdgeRow` evaluates). -/
def rowPair (sc ec : String) (cols : List String) (row : List PVal) :
    String × String :=
  let d := astypeStr (rowDict cols row) [sc, ec]
  (pyStr ((alGet? d sc).getD .nan), pyStr ((alGet? d ec).getD .nan))

/-- All endpoint pairs an edge-classified file contributes, in row order. -/
def fileEdgePairs (f : CsvFile) : List (String × String) :=
  match startColOf f.cols, endColOf f.cols with
  | some sc, some ec => f.rows.map (rowPair sc ec f.cols)
  | _, _ => []

/-- All endpoint pairs of all edge-classified files, in processing order. -/
def edgeRowPairs : List CsvFile → List (String × String)
  | [] => []
  | f :: fs =>
    (if detectFileRole f.cols = .edge then fileEdgePairs f else []) ++
      edgeRowPairs fs

/-- The `(source, target)` keys of the graph's edge dict, in insertion
order. -/
def edgeKeys (g : Graph) : List (String × String) :=
  g.edges.map Prod.fst

/-- The node identifiers present in the graph, in insertion order. -/
def nodeIds (g : Graph) : List String :=
  g.nodes.map Prod.fst

/-! ## Concrete inputs used by witnesses and counterexamples -/

/-- Ten nodes of one type `T`, the first nine carrying property `p` (the
sample node among them), the tenth without it: exactly 90% coverage. -/
def exTenOfNine : Graph :=
  { nodes :=
      (List.range 9).map (fun i =>
        (toString i, [("node_type", PVal.s "T"), ("p", PVal.s "x")])) ++
      [("9", [("node_type", PVal.s "T")])]
    edges := [] }

/-- Ten nodes of one type `T`, the first eight carrying property `p`. -/
def exTenOfEight : Graph :=
  { nodes :=
      (List.range 8).map (fun i =>
        (toString i, [("node_type", PVal.s "T"), ("p", PVal.s "x")])) ++
      [("8", [("node_type", PVal.s "T")]), ("9", [("node_type", PVal.s "T")])]
    edges := [] }

/-- A node file declaring ids `A` and `B`. -/
def exNodesCsv : CsvFile :=
  { filename := "nodes.csv", cols := [":ID"], rows := [[.s "A"], [.s "B"]] }

/-- An edge file of type `e1` with the single row `(A, B)`. -/
def exEdge1Csv : CsvFile :=
  { filename := "e1.csv", cols := [":START_ID", ":END_ID"]
    rows := [[.s "A", .s "B"]] }

/-- An edge file of type `e2` with the single row `(A, B)` — a second edge
type between the same endpoints. -/
def exEdge2Csv : CsvFile :=
  { filename := "e2.csv", cols := [":START_ID", ":END_ID"]
    rows := [[.s "A", .s "B"]] }

/-- An edge file referencing the undeclared endpoint `C`. -/
def exEdge3Csv : CsvFile :=
  { filename := "e3.csv", cols := [":START_ID", ":END_ID"]
    rows := [[.s "A", .s "C"]] }

/-- Reference schema: one node type `Neuron` with properties `a`, `b`, `c`. -/
def exGtSchema : Schema :=
  { node_types := [{ name := "Neuron", type := "", labels := []
                     properties := [⟨"a"⟩, ⟨"b"⟩, ⟨"c"⟩] }]
    edge_types := [] }

/-- Candidate schema: one node type `Neuron` with properties `a`, `b`, `d`. -/
def exInfSchema : Schema :=
  { node_types := [{ name := "Neuron", type := "", labels := []
                     properties := [⟨"a"⟩, ⟨"b"⟩, ⟨"d"⟩] }]
    edge_types := [] }

/-- A 100-character name: 81 characters shared with `exNameB` followed by 19
of its own (all caseless, pairwise distinct). -/
def exNameA : String :=
  ⟨(List.range 81).map (fun i => Char.ofNat (0x4E00 + i)) ++
   (List.range 19).map (fun i => Char.ofNat (0x5E00 + i))⟩

/-- A 100-character name sharing its first 81 characters with `exNameA`:
`similar exNameA exNameB = 2·81/200 = 0.81` exactly. -/
def exNameB : String :=
  ⟨(List.range 81).map (fun i => Char.ofNat (0x4E00 + i)) ++
   (List.range 19).map (fun i => Char.ofNat (0x5F00 + i))⟩

/-! # Helper lemmas -/

theorem alGet?_nil {κ ν : Type} [DecidableEq κ] {k : κ} :
    alGet? ([] : List (κ × ν)) k = none := rfl

theorem alGet?_cons {κ ν : Type} [DecidableEq κ] {m : List (κ × ν)}
    {k k' : κ} {v : ν} :
    alGet? ((k', v) :: m) k = if k' = k then some v else alGet? m k := by
  by_cases h : k' = k <;> simp [alGet?, List.find?_cons, h]

theorem alGet?_eq_none {κ ν : Type} [DecidableEq κ] {m : List (κ × ν)} {k : κ} :
    alGet? m k = none ↔ k ∉ m.map Prod.fst := by
  induction m with
  | nil => simp [alGet?_nil]
  | cons p m ih =>
    obtain ⟨k', v⟩ := p
    rw [alGet?_cons]
    by_cases h : k' = k
    · subst h; simp
    · simp [h, ih, Ne.symm h]

theorem alGet?_isSome {κ ν : Type} [DecidableEq κ] {m : List (κ × ν)} {k : κ} :
    (alGet? m k).isSome ↔ k ∈ m.map Prod.fst := by
  rw [Option.isSome_iff_ne_none, Ne, alGet?_eq_none, not_not]

theorem alGet?_append_some {κ ν : Type} [DecidableEq κ] {m m' : List (κ × ν)}
    {k : κ} {v : ν} (h : alGet? m k = some v) :
    alGet? (m ++ m') k = some v := by
  induction m with
  | nil => simp [alGet?_nil] at h
  | cons p m ih =>
    obtain ⟨k', w⟩ := p
    rw [List.cons_append, alGet?_cons]
    rw [alGet?_cons] at h
    by_cases hk : k' = k
    · simpa [hk] using h
    · rw [if_neg hk] at h
      rw [if_neg hk]
      exact ih h

theorem alGet?_append_none {κ ν : Type} [DecidableEq κ] {m m' : List (κ × ν)}
    {k : κ} (h : alGet? m k = none) :
    alGet? (m ++ m') k = alGet? m' k := by
  induction m with
  | nil => simp
  | cons p m ih =>
    obtain ⟨k', w⟩ := p
    rw [alGet?_cons] at h
    by_cases hk : k' = k
    · simp [hk] at h
    · rw [if_neg hk] at h
      rw [List.cons_append, alGet?_cons, if_neg hk]
      exact ih h

theorem alGet?_singleton {κ ν : Type} [DecidableEq κ] {k k' : κ} {v : ν} :
    alGet? [(k, v)] k' = if k = k' then some v else none := by
  rw [alGet?_cons, alGet?_nil]

/-- `alSet` on a present key leaves the key list unchanged. -/
theorem alSet_map_fst {κ ν : Type} [DecidableEq κ] {m : List (κ × ν)}
    {k : κ} {v : ν} (h : k ∈ m.map Prod.fst) :
    (alSet m k v).map Prod.fst = m.map Prod.fst := by
  have hany : m.any (fun p => decide (p.1 = k)) = true := by
    simp only [List.any_eq_true]
    obtain ⟨p, hp, rfl⟩ := List.mem_map.mp h
    exact ⟨p, hp, by simp⟩
  simp only [alSet, hany, if_true, List.map_map]
  apply List.map_congr_left
  intro p _
  by_cases hk : p.1 = k <;> simp [Function.comp, hk]

/-- Membership in the result of the Python-set fold. -/
theorem mem_foldl_dedupStep {α : Type} [DecidableEq α] {l : List α}
    {acc : List α} {x : α} :
    x ∈ l.foldl dedupStep acc ↔ x ∈ acc ∨ x ∈ l := by
  induction l generalizing acc with
  | nil => simp
  | cons a as ih =>
    simp only [List.foldl_cons, ih, dedupStep]
    by_cases hx : a ∈ acc
    · simp only [if_pos hx, List.mem_cons]
      constructor
      · rintro (h | h)
        · exact Or.inl h
        · exact Or.inr (Or.inr h)
      · rintro (h | rfl | h)
        · exact Or.inl h
        · exact Or.inl hx
        · exact Or.inr h
    · simp only [if_neg hx, List.mem_append, List.mem_singleton, List.mem_cons]
      tauto

theorem mem_dedupFirst {α : Type} [DecidableEq α] {l : List α} {x : α} :
    x ∈ dedupFirst l ↔ x ∈ l := by
  simp [dedupFirst, mem_foldl_dedupStep]

/-! # Claim C6 — tabular role classification -/

/-- **C6, corrected.**  A header is `edge` exactly when it carries both a
start-of-relationship marker and an end-of-relationship marker; otherwise it
is `node` exactly when some column contains `":ID"` (case-sensitive), or
contains `"id"` case-insensitively *while no column carries a start marker*
(the claim's unconditional "some column name contains `id`" clause is wrong:
see the counterexample); otherwise `unknown`.  The three headers named by
the claim classify as it predicts. -/
theorem c6_role_classifier (cols : List String) :
    (detectFileRole cols = .edge ↔
      ((∃ c ∈ cols, isStartCol c) ∧ (∃ c ∈ cols, isEndCol c))) ∧
    (detectFileRole cols = .node ↔
      (¬ ((∃ c ∈ cols, isStartCol c) ∧ (∃ c ∈ cols, isEndCol c)) ∧
        ∃ c ∈ cols, (strIn ":ID" c = true ∨
          (strIn "id" (pyLower c) = true ∧ ¬ ∃ c' ∈ cols, isStartCol c')))) ∧
    detectFileRole [":START_ID(X)", ":END_ID(Y)", "weight"] = .edge ∧
    detectFileRole [":ID(X)", "name"] = .node ∧
    detectFileRole ["foo", "bar"] = .unknown := by
  have hs : (startColOf cols).isSome = true ↔ ∃ c ∈ cols, isStartCol c := by
    simp [startColOf, List.find?_isSome]
  have he : (endColOf cols).isSome = true ↔ ∃ c ∈ cols, isEndCol c := by
    simp [endColOf, List.find?_isSome]
  have hnostart : (startColOf cols).isNone = true ↔ ¬ ∃ c' ∈ cols, isStartCol c' := by
    rw [Option.isNone_iff_eq_none, ← Option.not_isSome_iff_eq_none]
    exact not_congr hs
  have hid : (idColOf cols).isSome = true ↔
      ∃ c ∈ cols, (strIn ":ID" c = true ∨
        (strIn "id" (pyLower c) = true ∧ ¬ ∃ c' ∈ cols, isStartCol c')) := by
    simp only [idColOf, List.find?_isSome, Bool.or_eq_true, Bool.and_eq_true]
    constructor
    · rintro ⟨c, hc, h | ⟨ha, hb⟩⟩
      · exact ⟨c, hc, Or.inl h⟩
      · exact ⟨c, hc, Or.inr ⟨ha, hnostart.mp hb⟩⟩
    · rintro ⟨c, hc, h | ⟨ha, hb⟩⟩
      · exact ⟨c, hc, Or.inl h⟩
      · exact ⟨c, hc, Or.inr ⟨ha, hnostart.mpr hb⟩⟩
  refine ⟨⟨?_, ?_⟩, ⟨?_, ?_⟩, by decide, by decide, by decide⟩
  · intro h
    rw [detectFileRole] at h
    split at h
    · next hcond =>
      obtain ⟨h1, h2⟩ := Bool.and_eq_true_iff.mp hcond
      exact ⟨hs.mp h1, he.mp h2⟩
    · split at h <;> exact FileRole.noConfusion h
  · rintro ⟨hA, hB⟩
    rw [detectFileRole]
    simp [hs.mpr hA, he.mpr hB]
  · intro h
    rw [detectFileRole] at h
    split at h
    · next hcond => exact FileRole.noConfusion h
    · next hcond =>
      split at h
      · next h3 =>
        refine ⟨?_, hid.mp h3⟩
        rintro ⟨hA, hB⟩
        exact hcond (by simp [hs.mpr hA, he.mpr hB])
      · next h3 => exact FileRole.noConfusion h
  · rintro ⟨hne, hC⟩
    rw [detectFileRole]
    have e3 : (idColOf cols).isSome = true := hid.mpr hC
    have hcond : ((startColOf cols).isSome && (endColOf cols).isSome) = false := by
      cases hse : (startColOf cols).isSome with
      | false => rw [Bool.false_and]
      | true =>
        cases hee : (endColOf cols).isSome with
        | false => rw [Bool.and_false]
        | true => exact absurd ⟨hs.mp hse, he.mp hee⟩ hne
    simp [hcond, e3]

/-- **C6, counterexample.**  The header `[":START_ID(X)", "id"]` has a
column containing `"id"` case-insensitively and is not edge-classified (no
end marker), so the claim predicts `node`; the code returns `unknown`
because the start-marker column suppresses the lowercase-`id` test. -/
theorem c6_claim_counterexample :
    detectFileRole [":START_ID(X)", "id"] = .unknown ∧
    strIn "id" (pyLower "id") = true ∧
    endColOf [":START_ID(X)", "id"] = none := by
  decide

/-! # Claim C5 — matcher threshold and maximality -/

/-- Invariant of the `find_best_match` loop: the final state is the initial
one or carries some target's score strictly above the threshold; the best
score never decreases; and every target whose score clears the threshold is
dominated by the final best score. -/
theorem fbm_fold_spec (name : String) (targets : List String)
    (acc : ℚ × Option String) :
    (targets.foldl (fbmStep name) acc = acc ∨
      ∃ t ∈ targets, targets.foldl (fbmStep name) acc = (similar name t, some t) ∧
        similar name t > mkRat 4 5) ∧
    acc.1 ≤ (targets.foldl (fbmStep name) acc).1 ∧
    ∀ u ∈ targets, similar name u > mkRat 4 5 →
      similar name u ≤ (targets.foldl (fbmStep name) acc).1 := by
  induction targets generalizing acc with
  | nil => exact ⟨Or.inl rfl, le_refl _, by simp⟩
  | cons t ts ih =>
    rw [List.foldl_cons]
    obtain ⟨ih1, ih2, ih3⟩ := ih (fbmStep name acc t)
    have hstep : fbmStep name acc t = acc ∨
        (fbmStep name acc t = (similar name t, some t) ∧
          similar name t > mkRat 4 5 ∧ acc.1 < similar name t) := by
      simp only [fbmStep]
      split
      · next h => exact Or.inr ⟨rfl, h.1, h.2⟩
      · exact Or.inl rfl
    refine ⟨?_, ?_, ?_⟩
    · rcases ih1 with h | ⟨u, hu, hr, hgt⟩
      · rcases hstep with hs | ⟨hs, hgt, -⟩
        · exact Or.inl (h.trans hs)
        · exact Or.inr ⟨t, List.mem_cons_self t ts, h.trans hs, hgt⟩
      · exact Or.inr ⟨u, List.mem_cons_of_mem t hu, hr, hgt⟩
    · rcases hstep with hs | ⟨hs, -, hlt⟩
      · calc acc.1 = (fbmStep name acc t).1 := by rw [hs]
          _ ≤ _ := ih2
      · calc acc.1 ≤ (fbmStep name acc t).1 := by rw [hs]; exact le_of_lt hlt
          _ ≤ _ := ih2
    · intro u hu hgt
      rcases List.mem_cons.mp hu with rfl | hmem
      · by_cases hc : similar name u > mkRat 4 5 ∧ similar name u > acc.1
        · have hs : fbmStep name acc u = (similar name u, some u) := by
            simp only [fbmStep]
            rw [if_pos hc]
          calc similar name u = (fbmStep name acc u).1 := by rw [hs]
            _ ≤ _ := ih2
        · have hs : fbmStep name acc u = acc := by
            simp only [fbmStep]
            rw [if_neg hc]
          have hle : similar name u ≤ acc.1 := by
            rcases not_and_or.mp hc with h | h
            · exact absurd hgt h
            · exact not_lt.mp h
          calc similar name u ≤ acc.1 := hle
            _ = (fbmStep name acc u).1 := by rw [hs]
            _ ≤ _ := ih2
      · exact ih3 u hmem hgt

set_option maxRecDepth 8000 in
/-- **C5, confirmed.**  A returned match is a member of the candidate list,
its score is strictly above 0.8, and no candidate scores higher; when no
candidate exceeds 0.8 no match is emitted (and conversely a candidate above
0.8 forces a match).  Boundary: `similar "abc" "ab"` is exactly 0.80 and
does not match; `similar exNameA exNameB` is exactly 0.81 and does. -/
theorem c5_matcher_threshold (name : String) (targets : List String) :
    (∀ t, findBestMatch name targets = some t →
      t ∈ targets ∧ similar name t > mkRat 4 5 ∧
        ∀ u ∈ targets, similar name u ≤ similar name t) ∧
    (findBestMatch name targets = none →
      ∀ u ∈ targets, similar name u ≤ mkRat 4 5) ∧
    ((∃ u ∈ targets, similar name u > mkRat 4 5) →
      (findBestMatch name targets).isSome) ∧
    (similar "abc" "ab" = mkRat 4 5 ∧ findBestMatch "abc" ["ab"] = none) ∧
    (similar exNameA exNameB = mkRat 81 100 ∧
      findBestMatch exNameA [exNameB] = some exNameB) := by
  obtain ⟨h1, h2, h3⟩ := fbm_fold_spec name targets (0, none)
  have hnone : findBestMatch name targets = none →
      ∀ u ∈ targets, similar name u ≤ mkRat 4 5 := by
    intro hr u hu
    by_contra hgt
    push_neg at hgt
    have hle := h3 u hu hgt
    rcases h1 with h | ⟨t, -, ht, -⟩
    · rw [findBestMatch] at hr
      have : similar name u ≤ (0 : ℚ) := by
        rw [h] at hle
        exact hle
      have h45 : (0 : ℚ) < mkRat 4 5 := by decide
      exact absurd (lt_of_le_of_lt this h45) (not_lt.mpr (le_of_lt hgt))
    · rw [findBestMatch, ht] at hr
      exact Option.noConfusion hr
  refine ⟨?_, hnone, ?_, ⟨by decide, by decide⟩, ⟨by decide, by decide⟩⟩
  · intro t hr
    rcases h1 with h | ⟨u, hu, hfold, hgt⟩
    · rw [findBestMatch, h] at hr
      exact Option.noConfusion hr
    · rw [findBestMatch, hfold] at hr
      obtain rfl : u = t := Option.some.inj hr
      refine ⟨hu, hgt, ?_⟩
      intro v hv
      by_cases hvgt : similar name v > mkRat 4 5
      · have := h3 v hv hvgt
        rw [hfold] at this
        exact this
      · exact (not_lt.mp hvgt).trans (le_of_lt hgt)
  · rintro ⟨u, hu, hgt⟩
    cases hr : findBestMatch name targets with
    | none => exact absurd (hnone hr u hu) (not_le.mpr hgt)
    | some t => rfl

/-! # Claim C7 — properties of the similarity ratio -/

/-- Strings with the same lowercasing are empty together. -/
theorem pyLower_empty_iff {x y : String} (h : pyLower x = pyLower y) :
    x = "" ↔ y = "" := by
  have hd : x.data.map Char.toLower = y.data.map Char.toLower := by
    have := congrArg String.data h
    simpa [pyLower] using this
  have hlen : x.data.length = y.data.length := by
    have := congrArg List.length hd
    simpa using this
  have hemp : ("" : String).data = [] := rfl
  constructor <;> intro hx
  · subst hx
    rw [hemp] at hlen
    have hy : y.data = [] := List.eq_nil_of_length_eq_zero (by simpa using hlen.symm)
    exact String.ext (by rw [hy, hemp])
  · subst hx
    rw [hemp] at hlen
    have hy : x.data = [] := List.eq_nil_of_length_eq_zero (by simpa using hlen)
    exact String.ext (by rw [hy, hemp])

/-- **C7, corrected.**  The comparator's similarity is case-insensitive
(unchanged when either argument's letter case differs: it depends only on
the lowercased strings), but it is *not* symmetric and *not*
whitespace-agnostic: `similar "tide" "diet" = 1/4` while
`similar "diet" "tide" = 1/2`, and inserting a space (`"ab"` vs `"a b"`)
drops the ratio of identical letters from 1 to 4/5. -/
theorem c7_similarity (a a' b b' : String)
    (ha : pyLower a = pyLower a') (hb : pyLower b = pyLower b') :
    similar a b = similar a' b' ∧
    similar "tide" "diet" = mkRat 1 4 ∧
    similar "diet" "tide" = mkRat 1 2 ∧
    similar "ab" "a b" = mkRat 4 5 ∧
    similar "ab" "ab" = 1 := by
  refine ⟨?_, by decide, by decide, by decide, by decide⟩
  by_cases hA : a = "" ∨ b = ""
  · have hA' : a' = "" ∨ b' = "" := by
      rcases hA with h | h
      · exact Or.inl ((pyLower_empty_iff ha).mp h)
      · exact Or.inr ((pyLower_empty_iff hb).mp h)
    simp only [similar, if_pos hA, if_pos hA']
  · have hA' : ¬ (a' = "" ∨ b' = "") := by
      rintro (h | h)
      · exact hA (Or.inl ((pyLower_empty_iff ha).mpr h))
      · exact hA (Or.inr ((pyLower_empty_iff hb).mpr h))
    simp only [similar, if_neg hA, if_neg hA']
    rw [ha, hb]

/-- **C7, counterexample.**  The claim's symmetry and whitespace-agnosticism
both fail at explicit inputs: swapping `"tide"` and `"diet"` changes the
ratio, and a whitespace difference between otherwise equal strings changes
it too. -/
theorem c7_claim_counterexample :
    similar "tide" "diet" ≠ similar "diet" "tide" ∧
    similar "ab" "a b" ≠ similar "ab" "ab" := by decide

/-- Witness for `c7_similarity` at a concrete input: changing only letter
case leaves the score unchanged. -/
theorem c7_witness :
    similar "NEURON" "x" = similar "neuron" "x" ∧
    similar "tide" "diet" = mkRat 1 4 ∧
    similar "diet" "tide" = mkRat 1 2 ∧
    similar "ab" "a b" = mkRat 4 5 ∧
    similar "ab" "ab" = 1 :=
  c7_similarity "NEURON" "neuron" "x" "x" (by decide) (by decide)

/-! # Claim C4 — aggregate accuracy -/

/-- The guarded raw accuracy, rounded, agrees with the claim's
`0`-on-empty-denominator formulation. -/
theorem accuracy_if (tp tm : Nat) :
    round2 (if 0 < tp then mkRat (tm * 100) tp else 0) =
      if tp = 0 then 0 else round2 (mkRat (tm * 100) tp) := by
  by_cases h : tp = 0
  · rw [if_neg (by omega), if_pos h]
    decide
  · rw [if_pos (Nat.pos_of_ne_zero h), if_neg h]

/-- The accumulation loop computes exactly the sums over the match list. -/
theorem accumulateProps_spec (gtN infN : List (String × SType))
    (l : List (String × String)) :
    (accumulateProps gtN infN l).1 =
      (l.map (fun mp => (lookupProps gtN mp.1).length)).sum ∧
    (accumulateProps gtN infN l).2.1 =
      (l.map (fun mp =>
        (compareProps (lookupProps gtN mp.1) (lookupProps infN mp.2)).1.length)).sum ∧
    (accumulateProps gtN infN l).2.2 =
      l.map (fun mp =>
        (mp.1, compareProps (lookupProps gtN mp.1) (lookupProps infN mp.2))) := by
  induction l with
  | nil => exact ⟨rfl, rfl, rfl⟩
  | cons mp rest ih =>
    obtain ⟨mg, mi⟩ := mp
    obtain ⟨ih1, ih2, ih3⟩ := ih
    refine ⟨?_, ?_, ?_⟩
    · simp only [accumulateProps, List.map_cons, List.sum_cons, ih1]
    · simp only [accumulateProps, List.map_cons, List.sum_cons, ih2]
    · simp only [accumulateProps, List.map_cons, ih3]

/-- **C4, confirmed.**  The aggregate accuracy equals the sum of
correct-property counts over the matched node pairs, divided by the sum of
the reference property-list lengths over the same pairs, times 100, rounded
to two decimals, and is 0 when the denominator is 0.  On the claim's
`Neuron` example ({a,b,c} vs {a,b,d}) the partition is correct={a,b},
missing={c}, extra={d} and the accuracy is 66.67. -/
theorem c4_accuracy (gt inf : Schema) :
    ((compareSchemas gt inf).total_properties =
      ((compareSchemas gt inf).node_matches.map (fun mp =>
        (lookupProps (nodeDictOf gt) mp.1).length)).sum) ∧
    ((compareSchemas gt inf).matched_properties =
      (((compareSchemas gt inf).property_details.map (fun d => d.2.1.length)).sum)) ∧
    ((compareSchemas gt inf).accuracy =
      if (compareSchemas gt inf).total_properties = 0 then 0
      else round2 (mkRat ((compareSchemas gt inf).matched_properties * 100)
        (compareSchemas gt inf).total_properties)) ∧
    compareSchemas exGtSchema exInfSchema =
      { accuracy := mkRat 6667 100
        node_matches := [("Neuron", "Neuron")]
        edge_matches := []
        property_details := [("Neuron", (["a", "b"], ["c"], ["d"]))]
        total_properties := 3
        matched_properties := 2 } := by
  obtain ⟨h1, h2, h3⟩ := accumulateProps_spec (nodeDictOf gt) (nodeDictOf inf)
    (matchNames (nodeDictOf gt) (nodeDictOf inf))
  refine ⟨h1, ?_, ?_, by decide⟩
  · show (accumulateProps (nodeDictOf gt) (nodeDictOf inf)
        (matchNames (nodeDictOf gt) (nodeDictOf inf))).2.1 = _
    rw [h2]
    show _ = ((accumulateProps (nodeDictOf gt) (nodeDictOf inf)
        (matchNames (nodeDictOf gt) (nodeDictOf inf))).2.2.map
          (fun d => d.2.1.length)).sum
    rw [h3, List.map_map]
    rfl
  · exact accuracy_if
      (accumulateProps (nodeDictOf gt) (nodeDictOf inf)
        (matchNames (nodeDictOf gt) (nodeDictOf inf))).1
      (accumulateProps (nodeDictOf gt) (nodeDictOf inf)
        (matchNames (nodeDictOf gt) (nodeDictOf inf))).2.1

/-! # Claim C1 — the mandatory threshold of the deterministic fallback -/

/-- The source's float comparison `cnt / N > 0.9`, read over exact
rationals, is the strict integer threshold `9 * N < 10 * cnt`. -/
theorem mkRat_threshold (cnt N : Nat) (hN : 0 < N) :
    (mkRat 9 10 < mkRat cnt N) ↔ 9 * N < 10 * cnt := by
  rw [Rat.mkRat_eq_div, Rat.mkRat_eq_div]
  push_cast
  rw [div_lt_div_iff (by norm_num) (by exact_mod_cast hN)]
  constructor <;> intro h
  · have : 9 * N < cnt * 10 := by exact_mod_cast h
    omega
  · have : 9 * N < cnt * 10 := by omega
    exact_mod_cast this

/-- Membership shape of a `mockProps` output: every emitted property comes
from a key of the sample bag, and its `mandatory` flag is exactly the
strict >90% test of that key over the population. -/
theorem mockProps_mem {population : List Bag} {sampleBag : Bag}
    {skipKey : String} {pr : MockProperty}
    (h : pr ∈ mockProps population sampleBag skipKey) :
    pr.mandatory = decide (mkRat
      ((population.filter (fun bag => (alGet? bag pr.name).isSome)).length)
      population.length > mkRat 9 10) := by
  obtain ⟨q, -, rfl⟩ := List.mem_map.mp h
  rfl

/-- **C1, corrected.**  For every node or edge type the mock schema emits,
each property's `mandatory` flag is set exactly when *strictly more* than
90% of that type's population carries the key (`9·population <
10·carriers`).  The claim's concrete instance is wrong at the boundary:
with 10 members of which exactly 9 carry `p`, the coverage is exactly 90%,
not more, so `p` is *not* marked mandatory — just as with 8 of 10. -/
theorem c1_mandatory_threshold :
    (∀ (g : Graph) (nt : MockNodeType), nt ∈ (generateMockSchema g).node_types →
      ∀ pr ∈ nt.properties,
        (pr.mandatory = true ↔
          9 * (nodesOfType g nt.name).length <
            10 * ((nodesOfType g nt.name).filter
              (fun p => (alGet? p.2 pr.name).isSome)).length)) ∧
    (∀ (g : Graph) (et : MockEdgeType), et ∈ (generateMockSchema g).edge_types →
      ∀ pr ∈ et.properties,
        (pr.mandatory = true ↔
          9 * (edgesOfType g et.type).length <
            10 * ((edgesOfType g et.type).filter
              (fun e => (alGet? e.2 pr.name).isSome)).length)) ∧
    (generateMockSchema exTenOfNine).node_types =
      [{ name := .s "T", labels := [.s "T"]
         properties := [{ name := "p", type := "String", mandatory := false }] }] ∧
    (generateMockSchema exTenOfEight).node_types =
      [{ name := .s "T", labels := [.s "T"]
         properties := [{ name := "p", type := "String", mandatory := false }] }] := by
  refine ⟨?_, ?_, by decide, by decide⟩
  · intro g nt hnt pr hpr
    obtain ⟨v, -, hv⟩ := List.mem_filterMap.mp hnt
    rw [mockNodeEntry] at hv
    split at hv
    · exact Option.noConfusion hv
    · next sample rest hn =>
      obtain rfl := Option.some.inj hv
      simp only at hpr ⊢
      rw [mockProps_mem hpr, hn]
      rw [decide_eq_true_iff]
      have hfil : ((sample :: rest).map Prod.snd).filter
            (fun bag => (alGet? bag pr.name).isSome) =
          ((sample :: rest).filter
            (fun p => (alGet? p.2 pr.name).isSome)).map Prod.snd := by
        rw [List.filter_map]
        rfl
      rw [hfil, List.length_map, List.length_map]
      exact mkRat_threshold _ _ (by simp)
  · intro g et het pr hpr
    obtain ⟨v, -, hv⟩ := List.mem_filterMap.mp het
    rw [mockEdgeEntry] at hv
    split at hv
    · exact Option.noConfusion hv
    · next e rest hn =>
      obtain rfl := Option.some.inj hv
      simp only at hpr ⊢
      rw [mockProps_mem hpr, hn]
      rw [decide_eq_true_iff]
      have hfil : ((e :: rest).map Prod.snd).filter
            (fun bag => (alGet? bag pr.name).isSome) =
          ((e :: rest).filter
            (fun p => (alGet? p.2 pr.name).isSome)).map Prod.snd := by
        rw [List.filter_map]
        rfl
      rw [hfil, List.length_map, List.length_map]
      exact mkRat_threshold _ _ (by simp)

/-- **C1, counterexample.**  A node type with 10 members of which exactly 9
carry `p`: the claim says `p` is marked mandatory, but the generated schema
marks it `mandatory := false` (9/10 is not strictly above 90%). -/
theorem c1_claim_counterexample :
    (nodesOfType exTenOfNine (.s "T")).length = 10 ∧
    ((nodesOfType exTenOfNine (.s "T")).filter
      (fun p => (alGet? p.2 "p").isSome)).length = 9 ∧
    (generateMockSchema exTenOfNine).node_types =
      [{ name := .s "T", labels := [.s "T"]
         properties := [{ name := "p", type := "String", mandatory := false }] }] := by
  decide

/-! # Claim C8 — empty-graph fatality -/

/-- **C8, confirmed.**  When the built graph has zero nodes, the pipeline
reports the empty-graph error, never reaches the synthesis call (mock or
oracle), and writes no schema; in particular the outcome is identical for
every injected oracle. -/
theorem c8_empty_graph (files : List CsvFile) (apiKey : Option String)
    (oracle oracle' : ContextReport → Option MockSchema)
    (h : (buildGraph files).nodes.length = 0) :
    processSchemaDiscovery files apiKey oracle =
      { status := "error", message := "Graph is empty. No data found."
        reachedSynthesis := false, savedSchema := none } ∧
    processSchemaDiscovery files apiKey oracle =
      processSchemaDiscovery files apiKey oracle' := by
  refine ⟨?_, ?_⟩
  · unfold processSchemaDiscovery
    rw [if_pos h]
  · unfold processSchemaDiscovery
    rw [if_pos h, if_pos h]

/-- Witness for `c8_empty_graph`: a folder with no CSV files builds the
empty graph and fails before synthesis, for any two oracles. -/
theorem c8_witness :
    processSchemaDiscovery [] none (fun _ => none) =
      { status := "error", message := "Graph is empty. No data found."
        reachedSynthesis := false, savedSchema := none } ∧
    processSchemaDiscovery [] none (fun _ => none) =
      processSchemaDiscovery [] none (fun _ => some ⟨[], []⟩) :=
  c8_empty_graph [] none (fun _ => none) (fun _ => some ⟨[], []⟩) (by decide)

/-! # Claim C9 — the profiler's sampling caps -/

/-- **C9, confirmed.**  The edge profiler's topology histogram depends only
on the first 50 edges of the type (and keeps at most 5 entries), its
attribute-key enumeration depends only on the first 100 edges, and each
key's presence count is additive over the whole population (so edges beyond
any sample prefix are still counted); `profile_edge_type` is exactly this
profile over the type's full edge list. -/
theorem c9_edge_profile_caps :
    (∀ (nodes : List (String × Bag)) (es es' : List ((String × String) × Bag)),
      es.take 50 = es'.take 50 → edgeTopology nodes es = edgeTopology nodes es') ∧
    (∀ (nodes : List (String × Bag)) (es : List ((String × String) × Bag)),
      (edgeTopology nodes es).length ≤ 5) ∧
    (∀ (es es' : List ((String × String) × Bag)),
      es.take 100 = es'.take 100 → edgeSampleKeys es = edgeSampleKeys es') ∧
    (∀ (es extra : List ((String × String) × Bag)) (k : String),
      edgePresence (es ++ extra) k = edgePresence es k + edgePresence extra k) ∧
    (∀ (g : Graph) (et : PVal) (pf : EdgeProfile),
      profileEdgeType g et = some pf →
        pf = profileEdgeList g.nodes (edgesOfType g et)) := by
  refine ⟨?_, ?_, ?_, ?_, ?_⟩
  · intro nodes es es' h
    unfold edgeTopology edgeConnections
    rw [h]
  · intro nodes es
    unfold edgeTopology mostCommon
    rw [List.length_take]
    exact Nat.min_le_left _ _
  · intro es es' h
    unfold edgeSampleKeys
    rw [h]
  · intro es extra k
    unfold edgePresence
    rw [List.filter_append, List.length_append]
  · intro g et pf h
    rw [profileEdgeType] at h
    split at h
    · exact Option.noConfusion h
    · next e rest hn =>
      rw [hn]
      exact (Option.some.inj h).symm

/-! # Graph-builder lemmas (shared by claims C2, C3 and C10) -/

theorem addNode_edges (g : Graph) (id : String) (attrs : Bag) :
    (g.addNode id attrs).edges = g.edges := rfl

theorem addNode_nodes_fresh {g : Graph} {id : String} {attrs : Bag}
    (h : alGet? g.nodes id = none) :
    (g.addNode id attrs).nodes = g.nodes ++ [(id, alMerge [] attrs)] := by
  unfold Graph.addNode
  rw [h]

theorem addEdge_nodes {g : Graph} {u v : String} {attrs : Bag}
    (hu : (alGet? g.nodes u).isSome) (hv : (alGet? g.nodes v).isSome) :
    (g.addEdge u v attrs).nodes = g.nodes := by
  unfold Graph.addEdge
  simp only [hu, if_true, hv]

/-- `alMerge` of the inferred bag into an empty dict is the inferred bag. -/
theorem alMerge_nil_inferred : alMerge [] inferredBag = inferredBag := rfl

/-- Lookup after the `if not G.has_node(u): G.add_node(u,
node_type="Inferred")` step. -/
theorem ensureNode_lookup (g : Graph) (u x : String) :
    alGet? (if (alGet? g.nodes u).isSome then g
            else g.addNode u inferredBag).nodes x =
      (if alGet? g.nodes u = none ∧ x = u then some inferredBag
       else alGet? g.nodes x) := by
  by_cases hu : (alGet? g.nodes u).isSome
  · rw [if_pos hu]
    rw [if_neg ?_]
    rintro ⟨hnone, -⟩
    rw [hnone] at hu
    exact Bool.noConfusion hu
  · have hnone : alGet? g.nodes u = none := Option.not_isSome_iff_eq_none.mp hu
    rw [if_neg hu, addNode_nodes_fresh hnone, alMerge_nil_inferred]
    by_cases hx : x = u
    · subst hx
      rw [if_pos ⟨hnone, rfl⟩, alGet?_append_none hnone, alGet?_singleton,
        if_pos rfl]
    · rw [if_neg (by rintro ⟨-, h⟩; exact hx h)]
      cases hg : alGet? g.nodes x with
      | some w => exact alGet?_append_some hg
      | none =>
        rw [alGet?_append_none hg, alGet?_singleton, if_neg (fun h => hx h.symm)]

/-- The endpoint-ensure step keeps every present node present. -/
theorem ensureNode_lookup_some {g : Graph} {u x : String} {bag : Bag}
    (h : alGet? g.nodes x = some bag) :
    alGet? (if (alGet? g.nodes u).isSome then g
            else g.addNode u inferredBag).nodes x = some bag := by
  rw [ensureNode_lookup, if_neg]
  · exact h
  · rintro ⟨hnone, rfl⟩
    rw [h] at hnone
    exact Option.noConfusion hnone

/-- Node lookups after the full ensure-ensure-`add_edge` step of the Pass-2
row loop: an endpoint absent from the graph appears with exactly the
inferred bag; every other lookup is unchanged. -/
theorem edgeStep_lookup (g : Graph) (u v : String) (attrs : Bag) (x : String) :
    alGet? ((Graph.addEdge
        (if (alGet? (if (alGet? g.nodes u).isSome then g
            else g.addNode u inferredBag).nodes v).isSome
         then if (alGet? g.nodes u).isSome then g else g.addNode u inferredBag
         else (if (alGet? g.nodes u).isSome then g
            else g.addNode u inferredBag).addNode v inferredBag)
        u v attrs).nodes) x =
      if alGet? g.nodes x = none ∧ (x = u ∨ x = v) then some inferredBag
      else alGet? g.nodes x := by
  set g1 := if (alGet? g.nodes u).isSome then g else g.addNode u inferredBag
    with hg1
  set g2 := if (alGet? g1.nodes v).isSome then g1 else g1.addNode v inferredBag
    with hg2
  have h1 : ∀ y, alGet? g1.nodes y =
      if alGet? g.nodes u = none ∧ y = u then some inferredBag
      else alGet? g.nodes y := fun y => by
    rw [hg1]; exact ensureNode_lookup g u y
  have h2 : ∀ y, alGet? g2.nodes y =
      if alGet? g1.nodes v = none ∧ y = v then some inferredBag
      else alGet? g1.nodes y := fun y => by
    rw [hg2]; exact ensureNode_lookup g1 v y
  have hu2 : (alGet? g2.nodes u).isSome := by
    rw [h2 u]
    by_cases hc : alGet? g1.nodes v = none ∧ u = v
    · rw [if_pos hc]; rfl
    · rw [if_neg hc, h1 u]
      by_cases hgu : alGet? g.nodes u = none
      · rw [if_pos ⟨hgu, rfl⟩]; rfl
      · rw [if_neg (by rintro ⟨h, -⟩; exact hgu h)]
        exact Option.isSome_iff_ne_none.mpr hgu
  have hv2 : (alGet? g2.nodes v).isSome := by
    rw [h2 v]
    by_cases hg1v : alGet? g1.nodes v = none
    · rw [if_pos ⟨hg1v, rfl⟩]; rfl
    · rw [if_neg (by rintro ⟨h, -⟩; exact hg1v h)]
      exact Option.isSome_iff_ne_none.mpr hg1v
  rw [addEdge_nodes hu2 hv2, h2 x, h1 x, h1 v]
  by_cases hxu : x = u
  · subst hxu
    by_cases hgu : alGet? g.nodes x = none
    · rw [if_neg, if_pos ⟨hgu, rfl⟩, if_pos ⟨hgu, Or.inl rfl⟩]
      rintro ⟨hC1, hxv⟩
      rw [if_pos ⟨hgu, hxv.symm⟩] at hC1
      exact Option.noConfusion hC1
    · rw [if_neg, if_neg (by rintro ⟨h, -⟩; exact hgu h),
        if_neg (by rintro ⟨h, -⟩; exact hgu h)]
      rintro ⟨hC1, hxv⟩
      rw [if_neg (by rintro ⟨h, -⟩; exact hgu h), ← hxv] at hC1
      exact hgu hC1
  · by_cases hxv : x = v
    · subst hxv
      have hred : (if alGet? g.nodes u = none ∧ x = u then some inferredBag
          else alGet? g.nodes x) = alGet? g.nodes x :=
        if_neg (by rintro ⟨-, h⟩; exact hxu h)
      rw [hred]
      by_cases hgx : alGet? g.nodes x = none
      · rw [if_pos ⟨hgx, rfl⟩, if_pos ⟨hgx, Or.inr rfl⟩]
      · rw [if_neg (by rintro ⟨h, -⟩; exact hgx h),
          if_neg (by rintro ⟨h, -⟩; exact hgx h)]
    · rw [if_neg (by rintro ⟨-, h⟩; exact hxv h),
        if_neg (by rintro ⟨-, h⟩; exact hxu h),
        if_neg (by rintro ⟨-, h⟩; rcases h with h | h; exacts [hxu h, hxv h])]

/-- `addEdgeRow` is the ensure-ensure-`add_edge` step at its row's
endpoint pair. -/
theorem addEdgeRow_lookup (g : Graph) (t sc ec : String) (cols : List String)
    (row : List PVal) (x : String) :
    alGet? (addEdgeRow g t sc ec cols row).nodes x =
      (if alGet? g.nodes x = none ∧
          (x = (rowPair sc ec cols row).1 ∨ x = (rowPair sc ec cols row).2)
       then some inferredBag
       else alGet? g.nodes x) :=
  edgeStep_lookup g (rowPair sc ec cols row).1 (rowPair sc ec cols row).2
    (alMerge [("type", .s t)] (astypeStr (rowDict cols row) [sc, ec])) x

/-- A node present before a Pass-2 row keeps its exact bag. -/
theorem addEdgeRow_some {g : Graph} {t sc ec : String} {cols : List String}
    {row : List PVal} {x : String} {bag : Bag}
    (h : alGet? g.nodes x = some bag) :
    alGet? (addEdgeRow g t sc ec cols row).nodes x = some bag := by
  rw [addEdgeRow_lookup, if_neg]
  · exact h
  · rintro ⟨hn, -⟩
    rw [h] at hn
    exact Option.noConfusion hn

/-- A node absent (or a placeholder) before a Pass-2 row is absent or a
placeholder after it. -/
theorem addEdgeRow_placeholder {g : Graph} {t sc ec : String}
    {cols : List String} {row : List PVal} {x : String}
    (h : alGet? g.nodes x = none ∨ alGet? g.nodes x = some inferredBag) :
    alGet? (addEdgeRow g t sc ec cols row).nodes x = none ∨
      alGet? (addEdgeRow g t sc ec cols row).nodes x = some inferredBag := by
  rw [addEdgeRow_lookup]
  rcases h with h | h
  · by_cases hc : alGet? g.nodes x = none ∧
        (x = (rowPair sc ec cols row).1 ∨ x = (rowPair sc ec cols row).2)
    · rw [if_pos hc]
      exact Or.inr rfl
    · rw [if_neg hc]
      exact Or.inl h
  · rw [if_neg (by rintro ⟨hn, -⟩; rw [h] at hn; exact Option.noConfusion hn)]
    exact Or.inr h

/-- Node presence is monotone across a Pass-2 row. -/
theorem addEdgeRow_isSome {g : Graph} {t sc ec : String} {cols : List String}
    {row : List PVal} {x : String} (h : (alGet? g.nodes x).isSome) :
    (alGet? (addEdgeRow g t sc ec cols row).nodes x).isSome := by
  obtain ⟨bag, hb⟩ := Option.isSome_iff_exists.mp h
  rw [addEdgeRow_some hb]
  rfl

/-- After a Pass-2 row, both of its endpoints exist. -/
theorem addEdgeRow_pair_isSome (g : Graph) (t sc ec : String)
    (cols : List String) (row : List PVal) :
    (alGet? (addEdgeRow g t sc ec cols row).nodes
      (rowPair sc ec cols row).1).isSome ∧
    (alGet? (addEdgeRow g t sc ec cols row).nodes
      (rowPair sc ec cols row).2).isSome := by
  constructor <;> rw [addEdgeRow_lookup]
  · by_cases hn : alGet? g.nodes (rowPair sc ec cols row).1 = none
    · rw [if_pos ⟨hn, Or.inl rfl⟩]
      rfl
    · rw [if_neg (by rintro ⟨h, -⟩; exact hn h)]
      exact Option.isSome_iff_ne_none.mpr hn
  · by_cases hn : alGet? g.nodes (rowPair sc ec cols row).2 = none
    · rw [if_pos ⟨hn, Or.inr rfl⟩]
      rfl
    · rw [if_neg (by rintro ⟨h, -⟩; exact hn h)]
      exact Option.isSome_iff_ne_none.mpr hn

/-- Bag preservation through the whole row loop of one edge file. -/
theorem foldlRows_some (t sc ec : String) (cols : List String)
    (rows : List (List PVal)) :
    ∀ (g : Graph) (x : String) (bag : Bag), alGet? g.nodes x = some bag →
      alGet? ((rows.foldl (fun g row => addEdgeRow g t sc ec cols row) g).nodes) x
        = some bag := by
  induction rows with
  | nil => intro g x bag h; exact h
  | cons r rs ih =>
    intro g x bag h
    rw [List.foldl_cons]
    exact ih _ x bag (addEdgeRow_some h)

/-- Placeholder-or-absent preservation through one edge file's rows. -/
theorem foldlRows_placeholder (t sc ec : String) (cols : List String)
    (rows : List (List PVal)) :
    ∀ (g : Graph) (x : String),
      alGet? g.nodes x = none ∨ alGet? g.nodes x = some inferredBag →
      alGet? ((rows.foldl (fun g row => addEdgeRow g t sc ec cols row) g).nodes) x
          = none ∨
        alGet? ((rows.foldl (fun g row => addEdgeRow g t sc ec cols row) g).nodes) x
          = some inferredBag := by
  induction rows with
  | nil => intro g x h; exact h
  | cons r rs ih =>
    intro g x h
    rw [List.foldl_cons]
    exact ih _ x (addEdgeRow_placeholder h)

theorem processEdgeFile_some {g : Graph} {f : CsvFile} {x : String} {bag : Bag}
    (h : alGet? g.nodes x = some bag) :
    alGet? (processEdgeFile g f).nodes x = some bag := by
  unfold processEdgeFile
  split
  · exact foldlRows_some _ _ _ _ f.rows g x bag h
  · exact h

theorem processEdgeFile_placeholder {g : Graph} {f : CsvFile} {x : String}
    (h : alGet? g.nodes x = none ∨ alGet? g.nodes x = some inferredBag) :
    alGet? (processEdgeFile g f).nodes x = none ∨
      alGet? (processEdgeFile g f).nodes x = some inferredBag := by
  unfold processEdgeFile
  split
  · exact foldlRows_placeholder _ _ _ _ f.rows g x h
  · exact h

theorem buildPass2_some (files : List CsvFile) :
    ∀ (g : Graph) (x : String) (bag : Bag), alGet? g.nodes x = some bag →
      alGet? (buildPass2 g files).nodes x = some bag := by
  induction files with
  | nil => intro g x bag h; exact h
  | cons f fs ih =>
    intro g x bag h
    unfold buildPass2 at ih ⊢
    rw [List.foldl_cons]
    apply ih
    by_cases hrole : detectFileRole f.cols = .edge
    · rw [if_pos hrole]
      exact processEdgeFile_some h
    · rw [if_neg hrole]
      exact h

theorem buildPass2_placeholder (files : List CsvFile) :
    ∀ (g : Graph) (x : String),
      alGet? g.nodes x = none ∨ alGet? g.nodes x = some inferredBag →
      alGet? (buildPass2 g files).nodes x = none ∨
        alGet? (buildPass2 g files).nodes x = some inferredBag := by
  induction files with
  | nil => intro g x h; exact h
  | cons f fs ih =>
    intro g x h
    unfold buildPass2 at ih ⊢
    rw [List.foldl_cons]
    apply ih
    by_cases hrole : detectFileRole f.cols = .edge
    · rw [if_pos hrole]
      exact processEdgeFile_placeholder h
    · rw [if_neg hrole]
      exact h

theorem ensure_edges (g : Graph) (u : String) :
    (if (alGet? g.nodes u).isSome then g
     else { g with nodes := g.nodes ++ [(u, [])] }).edges = g.edges := by
  split <;> rfl

/-- The edge dict after `add_edge`: updated in place for a known `(u, v)`
pair, appended otherwise. -/
theorem addEdge_edges (g : Graph) (u v : String) (attrs : Bag) :
    (g.addEdge u v attrs).edges =
      (match alGet? g.edges (u, v) with
       | some bag => alSet g.edges (u, v) (alMerge bag attrs)
       | none => g.edges ++ [((u, v), alMerge [] attrs)]) := rfl

theorem ensureAdd_edges (g : Graph) (u : String) :
    (if (alGet? g.nodes u).isSome then g
     else g.addNode u inferredBag).edges = g.edges := by
  split
  · rfl
  · exact addNode_edges g u inferredBag

/-- `add_edge` keys the edge dict by the `(source, target)` pair alone. -/
theorem addEdge_edgeKeys (g : Graph) (u v : String) (attrs : Bag) :
    edgeKeys (g.addEdge u v attrs) = dedupStep (edgeKeys g) (u, v) := by
  unfold edgeKeys dedupStep
  rw [addEdge_edges]
  cases hc : alGet? g.edges (u, v) with
  | some bag =>
    have hmem : (u, v) ∈ g.edges.map Prod.fst :=
      alGet?_isSome.mp (by rw [hc]; rfl)
    rw [alSet_map_fst hmem, if_pos hmem]
  | none =>
    have hmem := alGet?_eq_none.mp hc
    rw [List.map_append, if_neg hmem]
    rfl

theorem addEdgeRow_edgeKeys (g : Graph) (t sc ec : String) (cols : List String)
    (row : List PVal) :
    edgeKeys (addEdgeRow g t sc ec cols row) =
      dedupStep (edgeKeys g) (rowPair sc ec cols row) := by
  simp only [addEdgeRow]
  rw [addEdge_edgeKeys]
  simp only [edgeKeys, ensureAdd_edges]
  rfl

theorem foldlRows_edgeKeys (t sc ec : String) (cols : List String)
    (rows : List (List PVal)) :
    ∀ g : Graph,
      edgeKeys (rows.foldl (fun g row => addEdgeRow g t sc ec cols row) g) =
        (rows.map (rowPair sc ec cols)).foldl dedupStep (edgeKeys g) := by
  induction rows with
  | nil => intro g; rfl
  | cons r rs ih =>
    intro g
    rw [List.foldl_cons, List.map_cons, List.foldl_cons, ih,
      addEdgeRow_edgeKeys]

theorem processEdgeFile_edgeKeys (g : Graph) (f : CsvFile) :
    edgeKeys (processEdgeFile g f) =
      (fileEdgePairs f).foldl dedupStep (edgeKeys g) := by
  rcases hsc : startColOf f.cols with _ | sc <;>
    rcases hec : endColOf f.cols with _ | ec <;>
      simp only [processEdgeFile, fileEdgePairs, hsc, hec, List.foldl_nil]
  exact foldlRows_edgeKeys _ _ _ _ f.rows g

theorem buildPass2_edgeKeys (files : List CsvFile) :
    ∀ g : Graph,
      edgeKeys (buildPass2 g files) =
        (edgeRowPairs files).foldl dedupStep (edgeKeys g) := by
  induction files with
  | nil => intro g; rfl
  | cons f fs ih =>
    intro g
    unfold buildPass2 at ih ⊢
    rw [List.foldl_cons, ih, edgeRowPairs, List.foldl_append]
    by_cases hrole : detectFileRole f.cols = .edge
    · rw [if_pos hrole, if_pos hrole, processEdgeFile_edgeKeys]
    · rw [if_neg hrole, if_neg hrole]
      rfl

theorem addNodeRow_edges (g : Graph) (t idc : String) (cols : List String)
    (row : List PVal) :
    (addNodeRow g t idc cols row).edges = g.edges := rfl

theorem processNodeFile_edges (g : Graph) (f : CsvFile) :
    (processNodeFile g f).edges = g.edges := by
  unfold processNodeFile
  split
  · rfl
  · next idc =>
    generalize g = g0
    induction f.rows generalizing g0 with
    | nil => rfl
    | cons r rs ih =>
      rw [List.foldl_cons]
      exact ih _

/-- Pass 1 never creates an edge. -/
theorem buildPass1_edges (files : List CsvFile) :
    (buildPass1 files).edges = [] := by
  suffices h : ∀ g : Graph,
      (files.foldl (fun g f =>
        if detectFileRole f.cols = .node then processNodeFile g f else g) g).edges
        = g.edges by
    exact h ⟨[], []⟩
  induction files with
  | nil => intro g; rfl
  | cons f fs ih =>
    intro g
    rw [List.foldl_cons, ih]
    by_cases hrole : detectFileRole f.cols = .node
    · rw [if_pos hrole]
      exact processNodeFile_edges g f
    · rw [if_neg hrole]

/-- One Pass-2 row preserves the every-edge-endpoint-exists invariant. -/
theorem addEdgeRow_endpoints {g : Graph} {t sc ec : String}
    {cols : List String} {row : List PVal}
    (h : ∀ k ∈ edgeKeys g,
      (alGet? g.nodes k.1).isSome ∧ (alGet? g.nodes k.2).isSome) :
    ∀ k ∈ edgeKeys (addEdgeRow g t sc ec cols row),
      (alGet? (addEdgeRow g t sc ec cols row).nodes k.1).isSome ∧
      (alGet? (addEdgeRow g t sc ec cols row).nodes k.2).isSome := by
  intro k hk
  rw [addEdgeRow_edgeKeys, dedupStep] at hk
  by_cases hmem : rowPair sc ec cols row ∈ edgeKeys g
  · rw [if_pos hmem] at hk
    exact ⟨addEdgeRow_isSome (h k hk).1, addEdgeRow_isSome (h k hk).2⟩
  · rw [if_neg hmem] at hk
    rcases List.mem_append.mp hk with hk | hk
    · exact ⟨addEdgeRow_isSome (h k hk).1, addEdgeRow_isSome (h k hk).2⟩
    · obtain rfl := List.mem_singleton.mp hk
      exact addEdgeRow_pair_isSome g t sc ec cols row

theorem foldlRows_endpoints (t sc ec : String) (cols : List String)
    (rows : List (List PVal)) :
    ∀ g : Graph,
      (∀ k ∈ edgeKeys g,
        (alGet? g.nodes k.1).isSome ∧ (alGet? g.nodes k.2).isSome) →
      ∀ k ∈ edgeKeys
          (rows.foldl (fun g row => addEdgeRow g t sc ec cols row) g),
        (alGet? ((rows.foldl (fun g row => addEdgeRow g t sc ec cols row) g).nodes)
          k.1).isSome ∧
        (alGet? ((rows.foldl (fun g row => addEdgeRow g t sc ec cols row) g).nodes)
          k.2).isSome := by
  induction rows with
  | nil => intro g h; exact h
  | cons r rs ih =>
    intro g h
    rw [List.foldl_cons]
    exact ih _ (addEdgeRow_endpoints h)

theorem processEdgeFile_endpoints {g : Graph} {f : CsvFile}
    (h : ∀ k ∈ edgeKeys g,
      (alGet? g.nodes k.1).isSome ∧ (alGet? g.nodes k.2).isSome) :
    ∀ k ∈ edgeKeys (processEdgeFile g f),
      (alGet? (processEdgeFile g f).nodes k.1).isSome ∧
      (alGet? (processEdgeFile g f).nodes k.2).isSome := by
  unfold processEdgeFile
  split
  · exact foldlRows_endpoints _ _ _ _ f.rows g h
  · exact h

theorem buildPass2_endpoints (files : List CsvFile) :
    ∀ g : Graph,
      (∀ k ∈ edgeKeys g,
        (alGet? g.nodes k.1).isSome ∧ (alGet? g.nodes k.2).isSome) →
      ∀ k ∈ edgeKeys (buildPass2 g files),
        (alGet? (buildPass2 g files).nodes k.1).isSome ∧
        (alGet? (buildPass2 g files).nodes k.2).isSome := by
  induction files with
  | nil => intro g h; exact h
  | cons f fs ih =>
    intro g h
    unfold buildPass2 at ih ⊢
    rw [List.foldl_cons]
    apply ih
    by_cases hrole : detectFileRole f.cols = .edge
    · rw [if_pos hrole]
      exact processEdgeFile_endpoints h
    · rw [if_neg hrole]
      exact h

/-- The edge keys of the finished build are exactly the deduplicated
`(source, target)` pairs of all edge rows. -/
theorem buildGraph_edgeKeys (files : List CsvFile) :
    edgeKeys (buildGraph files) = dedupFirst (edgeRowPairs files) := by
  unfold buildGraph dedupFirst
  rw [buildPass2_edgeKeys]
  have h0 : edgeKeys (buildPass1 files) = [] := by
    unfold edgeKeys
    rw [buildPass1_edges]
    rfl
  rw [h0]

/-! # Claim C2 — edge keying -/

/-- **C2, corrected.**  `build_graph` stores edges in an `nx.DiGraph`, so
edges are keyed by `(source id, target id)` *alone*, not by
`(source, target, edge type)`: the key list of the built graph is the
first-occurrence deduplication of all edge rows' endpoint pairs, and the
edge count is the number of *distinct* pairs — a row whose pair already
carries an edge overwrites that edge's attributes (its `type` included)
even when the types differ.  See the counterexample for the overwrite. -/
theorem c2_edge_keying (files : List CsvFile) :
    edgeKeys (buildGraph files) = dedupFirst (edgeRowPairs files) ∧
    (buildGraph files).edges.length = (dedupFirst (edgeRowPairs files)).length := by
  refine ⟨buildGraph_edgeKeys files, ?_⟩
  calc (buildGraph files).edges.length
      = (edgeKeys (buildGraph files)).length := (List.length_map _ _).symm
    _ = (dedupFirst (edgeRowPairs files)).length := by
        rw [buildGraph_edgeKeys files]

/-- **C2, counterexample.**  Two edge files of different types (`e1`, `e2`)
each contribute one row between the same endpoints `(A, B)`: the claim
predicts two coexisting edges, but the built graph holds a single edge and
its `type` is the second file's — the first edge was overwritten. -/
theorem c2_claim_counterexample :
    detectFileRole exEdge1Csv.cols = .edge ∧
    detectFileRole exEdge2Csv.cols = .edge ∧
    cleanTypeName exEdge1Csv.filename ≠ cleanTypeName exEdge2Csv.filename ∧
    exEdge1Csv.rows.length + exEdge2Csv.rows.length = 2 ∧
    (buildGraph [exNodesCsv, exEdge1Csv, exEdge2Csv]).edges.length = 1 ∧
    alGet? ((alGet? (buildGraph [exNodesCsv, exEdge1Csv, exEdge2Csv]).edges
      ("A", "B")).getD []) "type" = some (.s "e2") := by
  decide

/-! # Claim C3 — no dangling endpoints; placeholders are pure -/

/-- **C3, confirmed.**  After `build_graph`, every stored edge's endpoints
exist in the node set; every edge row's endpoint pair, in particular, has
both endpoints present; and any node not declared by a node file (not a
Pass-1 node) that is present in the final graph carries exactly the bag
`{node_type: "Inferred"}` and nothing else. -/
theorem c3_no_dangling (files : List CsvFile) :
    (∀ k ∈ edgeKeys (buildGraph files),
      (alGet? (buildGraph files).nodes k.1).isSome ∧
      (alGet? (buildGraph files).nodes k.2).isSome) ∧
    (∀ p ∈ edgeRowPairs files,
      (alGet? (buildGraph files).nodes p.1).isSome ∧
      (alGet? (buildGraph files).nodes p.2).isSome) ∧
    (∀ (x : String) (bag : Bag), x ∉ nodeIds (buildPass1 files) →
      alGet? (buildGraph files).nodes x = some bag → bag = inferredBag) := by
  have hend : ∀ k ∈ edgeKeys (buildGraph files),
      (alGet? (buildGraph files).nodes k.1).isSome ∧
      (alGet? (buildGraph files).nodes k.2).isSome := by
    unfold buildGraph
    apply buildPass2_endpoints
    intro k hk
    rw [show edgeKeys (buildPass1 files) = [] from by
      unfold edgeKeys; rw [buildPass1_edges]; rfl] at hk
    exact absurd hk (List.not_mem_nil k)
  refine ⟨hend, ?_, ?_⟩
  · intro p hp
    apply hend
    rw [buildGraph_edgeKeys files]
    exact mem_dedupFirst.mpr hp
  · intro x bag hx hlook
    have h0 : alGet? (buildPass1 files).nodes x = none := alGet?_eq_none.mpr hx
    have hinf := buildPass2_placeholder files (buildPass1 files) x (Or.inl h0)
    unfold buildGraph at hlook
    rcases hinf with h | h
    · rw [hlook] at h
      exact Option.noConfusion h
    · rw [hlook] at h
      exact Option.some.inj h

/-! # Claim C10 — frame property of edge processing -/

/-- **C10, confirmed.**  A Pass-2 row leaves every already-existing node's
bag (its `node_type` included) exactly unchanged; a node absent before the
row is afterwards either still absent or a pure `Inferred` placeholder; and
every node of the Pass-1 graph keeps its exact bag through the whole of
Pass 2, so a node declared by a node file is never relabeled or modified by
edge rows. -/
theorem c10_edge_pass_frame :
    (∀ (g : Graph) (t sc ec : String) (cols : List String) (row : List PVal)
      (x : String) (bag : Bag),
      alGet? g.nodes x = some bag →
        alGet? (addEdgeRow g t sc ec cols row).nodes x = some bag) ∧
    (∀ (g : Graph) (t sc ec : String) (cols : List String) (row : List PVal)
      (x : String),
      alGet? g.nodes x = none →
        alGet? (addEdgeRow g t sc ec cols row).nodes x = none ∨
        alGet? (addEdgeRow g t sc ec cols row).nodes x = some inferredBag) ∧
    (∀ (files : List CsvFile) (x : String) (bag : Bag),
      alGet? (buildPass1 files).nodes x = some bag →
        alGet? (buildGraph files).nodes x = some bag) := by
  refine ⟨?_, ?_, ?_⟩
  · intro g t sc ec cols row x bag h
    exact addEdgeRow_some h
  · intro g t sc ec cols row x h
    exact addEdgeRow_placeholder (Or.inl h)
  · intro files x bag h
    exact buildPass2_some files (buildPass1 files) x bag h

end SchemaDiscovery
